import Mathlib

/-!
Verification of the outline heading enforcement engine of `utils/heading_tools.py`
(functions `_find_h2`, `_find_h3`, `enforce_outline`, `default_required`) and of the
heading normalizer declared in `app.py`.

Texts are modelled as `String`; a character is whitespace when `Char.isWhitespace`
holds (space, tab, carriage return, newline), which matches the characters relevant
to the Python regexes on the inputs considered here.  The multiline regexes
`H2_RE = ^\s*##\s+(.+?)\s*$` and `H3_RE = ^\s*###\s+(.+?)\s*$` are modelled line by
line: a line matches when, after discarding leading whitespace, it starts with the
marker, the marker is followed by at least one whitespace character and at least one
further character, and the reported title is the trimmed remainder.  The splitting
regex `(?m)^(## .+)$` of `enforce_outline` keeps the captured heading lines, and the
newline terminating a heading line belongs to the following fragment, exactly as
`re.split` distributes it.

One known modelling caveat: on a degenerate line consisting of a heading marker
followed by nothing but whitespace, the Python engine lets the greedy `\s+` cross
the newline and take the title from a later line; this model, following the spec
contract for the parser (line-by-line scanning), reports an empty title for such a
line instead.  No claim below involves such lines.
-/

/-- Characters of a string, as a list. -/
def chars (s : String) : List Char := s.data

/-- Python `str.lstrip()` on a character list. -/
def lstripChars (cs : List Char) : List Char := cs.dropWhile Char.isWhitespace

/-- Python `str.rstrip()` on a character list. -/
def rstripChars (cs : List Char) : List Char :=
  (cs.reverse.dropWhile Char.isWhitespace).reverse

/-- Python `str.strip()` on a character list. -/
def stripChars (cs : List Char) : List Char := lstripChars (rstripChars cs)

/-- Python `str.lstrip()`. -/
def lstripS (s : String) : String := ⟨lstripChars s.data⟩

/-- Python `str.rstrip()`. -/
def rstripS (s : String) : String := ⟨rstripChars s.data⟩

/-- Python `str.strip()`. -/
def stripS (s : String) : String := ⟨stripChars s.data⟩

/-- Python slicing `s[n:]` (by characters). -/
def strDrop (s : String) (n : Nat) : String := ⟨s.data.drop n⟩

/-- Python `s.startswith(pre)`. -/
def startsWithS (s pre : String) : Bool := pre.data.isPrefixOf s.data

/-- Splitting a character list at newline characters, in the sense of
`str.split("\n")`: the separators are dropped and empty pieces are kept. -/
def splitNl : List Char → List (List Char)
  | [] => [[]]
  | c :: cs =>
    if c = '\n' then [] :: splitNl cs
    else
      match splitNl cs with
      | [] => [[c]]
      | l :: ls => (c :: l) :: ls

/-- Joining character-list lines with newline characters; inverse of `splitNl`. -/
def interNl : List (List Char) → List Char
  | [] => []
  | [l] => l
  | l :: ls => l ++ '\n' :: interNl ls

/-- The lines of a text, split at newline characters. -/
def linesOf (s : String) : List String := (splitNl s.data).map String.mk

/-- Python `"".join(l)`. -/
def joinAll (l : List String) : String := ⟨(l.map String.data).flatten⟩

/-- Python `"\n".join(l)`. -/
def joinNl (l : List String) : String := ⟨interNl (l.map String.data)⟩

/-- Python `text.endswith("\n")`. -/
def endsNlB (s : String) : Bool := s.data.getLast? == some '\n'

/-- The last character of a string, when there is one. -/
def lastCh (s : String) : Option Char := s.data.getLast?

/-- Per-line model of the heading regexes: after leading whitespace the line must
start with the marker (`##` or `###`), immediately followed by a whitespace
character and at least one further character; the title is the trimmed remainder.
Lines such as `### x` are rejected for the marker `##` because the character after
the marker is `#`, not whitespace. -/
def headingTitle (marker : List Char) (line : String) : Option String :=
  let s := lstripChars line.data
  if marker.isPrefixOf s then
    match s.drop marker.length with
    | c :: d :: rest => if c.isWhitespace then some ⟨stripChars (c :: d :: rest)⟩ else none
    | _ => none
  else none

/-- `_find_h2` of `utils/heading_tools.py`: the stripped titles of all level-2
heading lines, in order. -/
def _find_h2 (text : String) : List String :=
  (linesOf text).filterMap (headingTitle ['#', '#'])

/-- `_find_h3` of `utils/heading_tools.py`: the stripped titles of all level-3
heading lines, in order. -/
def _find_h3 (text : String) : List String :=
  (linesOf text).filterMap (headingTitle ['#', '#', '#'])

/-- A line matched by the splitting regex `(?m)^(## .+)$` of `enforce_outline`:
it must start with `## ` at column 0 and carry at least one further character. -/
def isSepLine (l : String) : Bool :=
  ['#', '#', ' '].isPrefixOf l.data && decide (4 ≤ l.data.length)

/-- Worker for `reSplitH2`.  `jn` is the pending joiner (`"\n"` except for the very
first line), `seg` the fragment accumulated so far.  A separator line closes the
current fragment, is emitted on its own, and the newline that terminates it is
carried into the following fragment, as `re.split` does with this pattern. -/
def reSplitAux (jn seg : String) : List String → List String
  | [] => [seg]
  | l :: ls =>
    if isSepLine l then (seg ++ jn) :: l :: reSplitAux "\n" "" ls
    else reSplitAux "\n" (seg ++ jn ++ l) ls

/-- `re.split(r'(?m)^(## .+)$', text)`: alternating fragments and captured
heading lines, whose concatenation gives back `text`. -/
def reSplitH2 (text : String) : List String := reSplitAux "" "" (linesOf text)

/-- The placeholder block injected for one missing level-3 subsection. -/
def subBlock (sub : String) : String :=
  "### " ++ sub ++ "\n- (Placeholder) نقطة موجزة.\n"

/-- The placeholder block queued for one missing level-2 section. -/
def tailBlock (h2 : String) : String :=
  "\n## " ++ h2 ++ "\n- (Placeholder) أضف نقاطًا موجزة هنا.\n"

/-- The rebuilding loop of `enforce_outline`.  It walks the split parts with index
steps of 3 when the element after the current one looks like a level-2 heading
line (after `lstrip`), injecting the placeholder text at the front of the section
fragment whenever the stripped heading line equals `## ` followed by the parent
title; otherwise it copies one element and advances by 1. -/
def rebuild (parent inject : String) : List String → List String
  | [] => []
  | [p] => [p]
  | p :: h :: rest =>
    if startsWithS (lstripS h) "## " then
      match rest with
      | [] => [p, h, if strDrop (stripS h) 3 == parent then inject ++ "" else ""]
      | r :: rs =>
        p :: h :: (if strDrop (stripS h) 3 == parent then inject ++ r else r) ::
          rebuild parent inject rs
    else p :: rebuild parent inject (h :: rest)

/-- One pass of the `for parent, subs in required_h3_map.items()` loop of
`enforce_outline`: the per-parent guard, the computation of the missing
subsections against the level-3 titles of the original text, and the
split/rebuild/join of the current text. -/
def h3Step (existing_h2 existing_h3 : List String) (cur : String)
    (pm : String × List String) : String :=
  if pm.2.isEmpty || !existing_h2.contains pm.1 then cur
  else
    let missing_subs := pm.2.filter (fun s => !existing_h3.contains s)
    if missing_subs.isEmpty then cur
    else joinAll (rebuild pm.1 (joinAll (missing_subs.map subBlock)) (reSplitH2 cur))

/-- `enforce_outline` of `utils/heading_tools.py`. -/
def enforce_outline (text : String) (required_h2 : List String)
    (required_h3_map : List (String × List String)) : String :=
  let existing_h2 := _find_h2 text
  let existing_h3 := _find_h3 text
  let text1 := if endsNlB text then text else text ++ "\n"
  let tail_additions :=
    (required_h2.filter (fun h2 => !existing_h2.contains h2)).map tailBlock
  let text2 := required_h3_map.foldl (h3Step existing_h2 existing_h3) text1
  if tail_additions.isEmpty then text2
  else rstripS text2 ++ "\n" ++ joinNl tail_additions ++ "\n"

/-- The fixed ordered list of required level-2 titles of `default_required`. -/
def required_h2_default : List String :=
  ["الخلاصة السريعة", "كيف نفسّر؟", "الحالات المؤثرة", "حالة الرائي",
   "مقارنة التراث والنفسي", "FAQ", "المصادر"]

/-- The money synonym set of `default_required`. -/
def money_synonyms : List String := ["المال", "مال", "النقود", "النقد"]

/-- The dreamer-status subsections always required by `default_required`. -/
def dreamer_subs : List String := ["عزباء", "متزوجة", "حامل", "مطلقة", "رجل"]

/-- The money-specific subsection list of `default_required`. -/
def money_subs : List String :=
  ["مال ورقي vs معدني", "العثور", "الضياع", "السرقة", "الإهداء", "العدّ",
   "التبرّع", "المبلغ والعملة"]

/-- The generic fallback subsection list of `default_required`. -/
def generic_subs : List String := ["تنويعات شائعة", "سياقات تزيد/تنقص المعنى"]

/-- `default_required` of `utils/heading_tools.py`; the association list keeps the
insertion order of the Python dict. -/
def default_required (symbol : String) : List String × List (String × List String) :=
  let s := stripS symbol
  (required_h2_default,
   [("حالة الرائي", dreamer_subs),
    ("الحالات المؤثرة", if money_synonyms.contains s then money_subs else generic_subs)])

/-- Modelled from the spec: `normalize_methodology_heading` is imported by
`app.py` from `utils.heading_tools` but no definition appears in the sources.
Per the spec it rewrites one specific known heading-title variant (the
methodology variant `منهجية التفسير` named by the quality checks) to its
canonical form `كيف نفسّر؟` on heading lines only, leaving body prose alone. -/
def normLine (l : String) : String :=
  if headingTitle ['#', '#'] l == some "منهجية التفسير" then "## كيف نفسّر؟"
  else if headingTitle ['#', '#', '#'] l == some "منهجية التفسير" then "### كيف نفسّر؟"
  else l

/-- Modelled from the spec: the heading normalizer, applied line by line. -/
def normalize_methodology_heading (text : String) : String :=
  joinNl ((linesOf text).map normLine)

/-- No requirement would trigger an injection on the text `u`: every required
level-2 title already parses out of `u`, and every parent entry of the map is
either empty, absent from the level-2 titles of `u`, or has all its subsections
among the level-3 titles of `u`.  This is the formal reading of the side
condition of the idempotence property: required headings, once injected, are not
candidates for any further injection. -/
def noFurtherInjection (required_h2 : List String)
    (required_h3_map : List (String × List String)) (u : String) : Prop :=
  (∀ h2 ∈ required_h2, (_find_h2 u).contains h2 = true) ∧
  (∀ pm ∈ required_h3_map, pm.2 = [] ∨ (_find_h2 u).contains pm.1 = false ∨
    ∀ s ∈ pm.2, (_find_h3 u).contains s = true)

/-- The scenario input of the money-symbol injection claim. -/
def moneyScenarioText : String := "## الحالات المؤثرة\n- نص\n"

/-- The repaired money scenario text. -/
def moneyScenarioOut : String :=
  enforce_outline moneyScenarioText (default_required "المال").1 (default_required "المال").2

/-- A text whose required level-3 parent is the second level-2 heading. -/
def walkScenarioText : String := "## س\nx\n## حالة الرائي\ny\n"

/-- The repaired second-heading-parent text. -/
def walkScenarioOut : String :=
  enforce_outline walkScenarioText (default_required "").1 (default_required "").2

/-- A text consisting of exactly one required level-3 parent heading line. -/
def glueScenarioText : String := "## حالة الرائي\n"

/-- The repaired single-parent text. -/
def glueScenarioOut : String :=
  enforce_outline glueScenarioText (default_required "").1 (default_required "").2

/-- A text containing only the parent `Q`, for a schema in which the absent
parent `P` and the present parent `Q` require the same subsection titles. -/
def overlapScenarioText : String := "## Q\nx\n"

/-- The repaired overlapping-schema text. -/
def overlapScenarioOut : String :=
  enforce_outline overlapScenarioText [] [("P", ["S1", "S2"]), ("Q", ["S1", "S2"])]

/-- The repair of the indented-parent text, for an arbitrary subsection list
required under that parent. -/
def indentedParentOut (subs : List String) : String :=
  enforce_outline " ## حالة الرائي\n" required_h2_default [("حالة الرائي", subs)]

/-- A document satisfying the complete money schema, with a trailing newline. -/
def fullMoneyText : String :=
  "## الخلاصة السريعة\n## كيف نفسّر؟\n## الحالات المؤثرة\n### مال ورقي vs معدني\n### العثور\n### الضياع\n### السرقة\n### الإهداء\n### العدّ\n### التبرّع\n### المبلغ والعملة\n## حالة الرائي\n### عزباء\n### متزوجة\n### حامل\n### مطلقة\n### رجل\n## مقارنة التراث والنفسي\n## FAQ\n## المصادر\n"

/-- A document satisfying the complete generic schema, without a trailing
newline. -/
def fullGenericText : String :=
  "## الخلاصة السريعة\n## كيف نفسّر؟\n## الحالات المؤثرة\n### تنويعات شائعة\n### سياقات تزيد/تنقص المعنى\n## حالة الرائي\n### عزباء\n### متزوجة\n### حامل\n### مطلقة\n### رجل\n## مقارنة التراث والنفسي\n## FAQ\n## المصادر"

/-! ## Basic string lemmas -/

theorem strExt {s t : String} (h : s.data = t.data) : s = t := by
  cases s; cases t; exact congrArg String.mk h

theorem strAppend_data (s t : String) : (s ++ t).data = s.data ++ t.data := by
  cases s; cases t; rfl

theorem strAppend_empty (s : String) : s ++ "" = s := by
  apply strExt; rw [strAppend_data]; exact List.append_nil _

theorem strEmpty_append (s : String) : "" ++ s = s := by
  apply strExt; rw [strAppend_data]; rfl

theorem mk_data (s : String) : String.mk s.data = s := by cases s; rfl

theorem lastCh_append (s t : String) : lastCh (s ++ t) = (lastCh t).or (lastCh s) := by
  unfold lastCh
  rw [strAppend_data]
  rcases eq_or_ne t.data [] with h | h
  · rw [h]; simp
  · rw [List.getLast?_append_of_ne_nil _ h]
    obtain ⟨c, hc⟩ := Option.isSome_iff_exists.mp (List.getLast?_isSome.mpr h)
    rw [hc]; simp

theorem joinAll_nil : joinAll [] = "" := rfl

theorem joinAll_cons (a : String) (l : List String) :
    joinAll (a :: l) = a ++ joinAll l := by
  apply strExt; rw [strAppend_data]; simp [joinAll]

theorem joinNl_nil : joinNl [] = "" := rfl

theorem joinNl_single (a : String) : joinNl [a] = a := by
  apply strExt; simp [joinNl, interNl]

theorem joinNl_cons (a b : String) (l : List String) :
    joinNl (a :: b :: l) = a ++ "\n" ++ joinNl (b :: l) := by
  apply strExt
  rw [strAppend_data, strAppend_data]
  simp [joinNl, interNl]

/-! ## Splitting and joining lines -/

theorem splitNl_ne_nil (cs : List Char) : splitNl cs ≠ [] := by
  induction cs with
  | nil => simp [splitNl]
  | cons c cs ih =>
    unfold splitNl
    by_cases h : c = '\n'
    · simp [h]
    · simp only [h, if_false]
      cases splitNl cs <;> simp

theorem interNl_cons_of_ne_nil (l : List Char) (ls : List (List Char)) (h : ls ≠ []) :
    interNl (l :: ls) = l ++ '\n' :: interNl ls := by
  cases ls with
  | nil => exact absurd rfl h
  | cons a as => rfl

theorem interNl_splitNl (cs : List Char) : interNl (splitNl cs) = cs := by
  induction cs with
  | nil => rfl
  | cons c cs ih =>
    unfold splitNl
    by_cases h : c = '\n'
    · simp only [h, if_true]
      rw [interNl_cons_of_ne_nil _ _ (splitNl_ne_nil cs), ih]
      rfl
    · simp only [h, if_false]
      rcases hs : splitNl cs with _ | ⟨m, ms⟩
      · exact absurd hs (splitNl_ne_nil cs)
      · rcases ms with _ | ⟨m2, ms2⟩
        · simp only [interNl]
          have : interNl [m] = cs := by rw [← hs, ih]
          simpa [interNl] using congrArg (c :: ·) this
        · rw [interNl_cons_of_ne_nil _ _ (by simp)]
          have : interNl (m :: m2 :: ms2) = cs := by rw [← hs, ih]
          rw [interNl_cons_of_ne_nil _ _ (by simp)] at this
          simp [← this]

theorem joinNl_linesOf (s : String) : joinNl (linesOf s) = s := by
  unfold joinNl linesOf
  rw [List.map_map]
  have h1 : String.data ∘ String.mk = id := rfl
  rw [h1, List.map_id, interNl_splitNl, mk_data]

theorem linesOf_ne_nil (s : String) : linesOf s ≠ [] := by
  unfold linesOf
  simpa using splitNl_ne_nil s.data

/-! ## The split used by the injection loop concatenates back to the text -/

theorem reSplitAux_join (ls : List String) :
    ∀ jn seg : String, ls ≠ [] →
      joinAll (reSplitAux jn seg ls) = seg ++ jn ++ joinNl ls := by
  induction ls with
  | nil => intro jn seg h; exact absurd rfl h
  | cons l ls ih =>
    intro jn seg _
    unfold reSplitAux
    by_cases hs : isSepLine l
    · simp only [hs, if_true]
      rw [joinAll_cons, joinAll_cons]
      cases ls with
      | nil =>
        show seg ++ jn ++ (l ++ joinAll (reSplitAux "\n" "" [])) = _
        simp [reSplitAux, joinAll_cons, joinAll_nil, joinNl_single,
          strAppend_empty, String.append_assoc]
      | cons l2 ls2 =>
        rw [ih "\n" "" (by simp), joinNl_cons, strEmpty_append]
        simp [String.append_assoc]
    · rw [if_neg hs]
      cases ls with
      | nil =>
        show joinAll (reSplitAux "\n" (seg ++ jn ++ l) []) = _
        simp [reSplitAux, joinAll_cons, joinAll_nil, joinNl_single, strAppend_empty]
      | cons l2 ls2 =>
        rw [ih "\n" (seg ++ jn ++ l) (by simp), joinNl_cons]
        simp [String.append_assoc]

theorem reSplit_join (s : String) : joinAll (reSplitH2 s) = s := by
  unfold reSplitH2
  rw [reSplitAux_join _ "" "" (linesOf_ne_nil s), strEmpty_append, strEmpty_append]
  exact joinNl_linesOf s

/-! ## Trailing-newline preservation -/

theorem lastCh_subBlock (s : String) : lastCh (subBlock s) = some '\n' := by
  unfold subBlock
  rw [lastCh_append]
  rfl

theorem lastCh_inject (missing : List String) (h : missing ≠ []) :
    lastCh (joinAll (missing.map subBlock)) = some '\n' := by
  induction missing with
  | nil => exact absurd rfl h
  | cons m ms ih =>
    rw [List.map_cons, joinAll_cons, lastCh_append]
    cases ms with
    | nil =>
      rw [List.map_nil, joinAll_nil]
      simp [lastCh_subBlock, show lastCh "" = none from rfl]
    | cons m2 ms2 => rw [ih (by simp)]; simp

theorem rebuild_cons₂ (parent inject p h : String) (rest : List String) :
    rebuild parent inject (p :: h :: rest) =
      if startsWithS (lstripS h) "## " then
        match rest with
        | [] => [p, h, if strDrop (stripS h) 3 == parent then inject ++ "" else ""]
        | r :: rs =>
          p :: h :: (if strDrop (stripS h) 3 == parent then inject ++ r else r) ::
            rebuild parent inject rs
      else p :: rebuild parent inject (h :: rest) := by
  cases rest with
  | nil => rfl
  | cons r rs => rfl

theorem rebuild_lastCh (parent inject : String) (hinj : lastCh inject = some '\n')
    (parts : List String) :
    lastCh (joinAll (rebuild parent inject parts)) = lastCh (joinAll parts) ∨
    lastCh (joinAll (rebuild parent inject parts)) = some '\n' := by
  induction parts using rebuild.induct parent inject with
  | case1 => exact Or.inl rfl
  | case2 p => exact Or.inl rfl
  | case3 p h hc =>
    rw [rebuild_cons₂, if_pos hc]
    by_cases ht : strDrop (stripS h) 3 == parent
    · rw [if_pos ht]
      right
      simp only [joinAll_cons, joinAll_nil, lastCh_append, strAppend_empty, hinj]
      simp
    · rw [if_neg ht]
      left
      simp [joinAll_cons, joinAll_nil, lastCh_append, strAppend_empty, lastCh]
  | case4 p h hc r rs ih =>
    rw [rebuild_cons₂, if_pos hc]
    simp only [joinAll_cons]
    simp only [lastCh_append]
    rcases ih with ih | ih <;> by_cases ht : strDrop (stripS h) 3 == parent
    · rw [if_pos ht, ih, lastCh_append]
      cases hA : lastCh (joinAll rs) <;> cases hr : lastCh r <;>
        simp [Option.or, hinj]
    · rw [if_neg ht, ih]
      left; rfl
    · rw [if_pos ht, ih]
      right; simp [Option.or]
    · rw [if_neg ht, ih]
      right; simp [Option.or]
  | case5 p h rest hc ih =>
    rw [rebuild_cons₂, if_neg hc]
    simp only [joinAll_cons, lastCh_append] at ih ⊢
    rcases ih with ih | ih
    · rw [ih]; left; rfl
    · rw [ih]; right; simp [Option.or]

theorem h3Step_lastCh (e2 e3 : List String) (cur : String) (pm : String × List String)
    (h : lastCh cur = some '\n') : lastCh (h3Step e2 e3 cur pm) = some '\n' := by
  unfold h3Step
  split
  · exact h
  · dsimp only
    split
    · exact h
    · rename_i h1 h2
      have hne : pm.2.filter (fun s => !e3.contains s) ≠ [] := by
        intro hx; rw [hx] at h2; simp at h2
      rcases rebuild_lastCh pm.1
          (joinAll ((pm.2.filter (fun s => !e3.contains s)).map subBlock))
          (lastCh_inject _ hne) (reSplitH2 cur) with hh | hh
      · rw [reSplit_join] at hh; rw [hh]; exact h
      · exact hh

theorem foldl_h3Step_lastCh (e2 e3 : List String) (m : List (String × List String)) :
    ∀ cur : String, lastCh cur = some '\n' →
      lastCh (m.foldl (h3Step e2 e3) cur) = some '\n' := by
  induction m with
  | nil => intro cur h; exact h
  | cons pm ms ih =>
    intro cur h
    rw [List.foldl_cons]
    exact ih _ (h3Step_lastCh e2 e3 cur pm h)

theorem lastCh_text1 (text : String) :
    lastCh (if endsNlB text then text else text ++ "\n") = some '\n' := by
  split
  · rename_i he
    unfold endsNlB at he
    unfold lastCh
    simpa using he
  · rw [lastCh_append]; rfl

/-- The repaired text always ends with a newline character. -/
theorem enforce_outline_lastCh (text : String) (required_h2 : List String)
    (required_h3_map : List (String × List String)) :
    lastCh (enforce_outline text required_h2 required_h3_map) = some '\n' := by
  unfold enforce_outline
  dsimp only
  split
  · exact foldl_h3Step_lastCh _ _ _ _ (lastCh_text1 text)
  · rw [lastCh_append]; rfl

/-! ## When nothing is missing, the repair only normalizes the trailing newline -/

theorem h3Step_skip (e2 e3 : List String) (cur : String) (pm : String × List String)
    (h : pm.2 = [] ∨ e2.contains pm.1 = false ∨
         pm.2.filter (fun s => !e3.contains s) = []) :
    h3Step e2 e3 cur pm = cur := by
  unfold h3Step
  rcases h with h | h | h
  · rw [if_pos]; rw [h]; rfl
  · rw [if_pos]; rw [h]; simp
  · split
    · rfl
    · dsimp only
      rw [h]
      rfl

theorem foldl_h3Step_skip (e2 e3 : List String) (m : List (String × List String))
    (h : ∀ pm ∈ m, pm.2 = [] ∨ e2.contains pm.1 = false ∨
         pm.2.filter (fun s => !e3.contains s) = []) :
    ∀ cur : String, m.foldl (h3Step e2 e3) cur = cur := by
  induction m with
  | nil => intro cur; rfl
  | cons pm ms ih =>
    intro cur
    rw [List.foldl_cons, h3Step_skip _ _ _ _ (h pm (by simp))]
    exact ih (fun q hq => h q (by simp [hq])) cur

theorem enforce_eq_of_skip (text : String) (required_h2 : List String)
    (m : List (String × List String))
    (h1 : required_h2.filter (fun h2 => !(_find_h2 text).contains h2) = [])
    (h2 : ∀ pm ∈ m, pm.2 = [] ∨ (_find_h2 text).contains pm.1 = false ∨
          pm.2.filter (fun s => !(_find_h3 text).contains s) = []) :
    enforce_outline text required_h2 m =
      if endsNlB text then text else text ++ "\n" := by
  unfold enforce_outline
  dsimp only
  rw [foldl_h3Step_skip _ _ _ h2, h1]
  rfl

/-! ## Lines of a joined line list -/

theorem splitNl_no_nl (cs : List Char) (h : '\n' ∉ cs) : splitNl cs = [cs] := by
  induction cs with
  | nil => rfl
  | cons c cs ih =>
    unfold splitNl
    rw [if_neg (by intro hc; exact h (by simp [hc]))]
    rw [ih (by intro hc; exact h (by simp [hc]))]

theorem splitNl_cons (c : Char) (cs : List Char) :
    splitNl (c :: cs) =
      if c = '\n' then [] :: splitNl cs
      else
        match splitNl cs with
        | [] => [[c]]
        | l :: ls => (c :: l) :: ls := by
  rw [splitNl]

theorem splitNl_append (l rest : List Char) (h : '\n' ∉ l) :
    splitNl (l ++ '\n' :: rest) = l :: splitNl rest := by
  induction l with
  | nil => simp [splitNl]
  | cons c cs ih =>
    rw [List.cons_append, splitNl_cons]
    rw [if_neg (by intro hc; exact h (by simp [hc]))]
    rw [ih (by intro hc; exact h (by simp [hc]))]

theorem splitNl_interNl (ll : List (List Char)) (hne : ll ≠ [])
    (h : ∀ l ∈ ll, '\n' ∉ l) : splitNl (interNl ll) = ll := by
  induction ll with
  | nil => exact absurd rfl hne
  | cons l ls ih =>
    cases ls with
    | nil => exact splitNl_no_nl l (h l (by simp))
    | cons l2 ls2 =>
      rw [interNl_cons_of_ne_nil _ _ (by simp)]
      rw [splitNl_append _ _ (h l (by simp))]
      rw [ih (by simp) (fun q hq => h q (by simp [hq]))]

theorem mem_splitNl_no_nl (cs : List Char) : ∀ l ∈ splitNl cs, '\n' ∉ l := by
  induction cs with
  | nil =>
    intro l hl
    simp only [splitNl, List.mem_singleton] at hl
    simp [hl]
  | cons c cs ih =>
    intro l hl
    unfold splitNl at hl
    by_cases hc : c = '\n'
    · rw [if_pos hc] at hl
      rcases List.mem_cons.mp hl with rfl | hl
      · simp
      · exact ih l hl
    · rw [if_neg hc] at hl
      rcases hs : splitNl cs with _ | ⟨m, ms⟩
      · exact absurd hs (splitNl_ne_nil cs)
      · rw [hs] at hl
        rcases List.mem_cons.mp hl with rfl | hl
        · intro hmem
          rcases List.mem_cons.mp hmem with h1 | h1
          · exact hc h1.symm
          · exact ih m (by rw [hs]; simp) h1
        · exact ih l (by rw [hs]; simp [hl])

theorem mem_linesOf_no_nl (s : String) : ∀ l ∈ linesOf s, '\n' ∉ l.data := by
  intro l hl
  obtain ⟨cs, hcs, rfl⟩ := List.mem_map.mp hl
  exact mem_splitNl_no_nl s.data cs hcs

theorem linesOf_joinNl (L : List String) (hne : L ≠ [])
    (h : ∀ l ∈ L, '\n' ∉ l.data) : linesOf (joinNl L) = L := by
  unfold linesOf joinNl
  rw [show (String.mk (interNl (L.map String.data))).data = interNl (L.map String.data) from rfl]
  rw [splitNl_interNl _ (by simpa using hne)
    (by intro l hl; obtain ⟨x, hx, rfl⟩ := List.mem_map.mp hl; exact h x hx)]
  rw [List.map_map]
  have h1 : String.mk ∘ String.data = id := by
    funext z; exact mk_data z
  rw [h1, List.map_id]

/-! ## The normalizer is idempotent -/

theorem normLine_no_nl (l : String) (h : '\n' ∉ l.data) : '\n' ∉ (normLine l).data := by
  unfold normLine
  split
  · decide
  · split
    · decide
    · exact h

theorem normLine_idem (l : String) : normLine (normLine l) = normLine l := by
  by_cases h1 : (headingTitle ['#', '#'] l == some "منهجية التفسير") = true
  · have e : normLine l = "## كيف نفسّر؟" := by rw [normLine, if_pos h1]
    rw [e]; rfl
  · by_cases h2 : (headingTitle ['#', '#', '#'] l == some "منهجية التفسير") = true
    · have e : normLine l = "### كيف نفسّر؟" := by rw [normLine, if_neg h1, if_pos h2]
      rw [e]; rfl
    · have e : normLine l = l := by rw [normLine, if_neg h1, if_neg h2]
      rw [e, e]

/-! ## Claim theorems -/

/-- C1: evaluation of the repair at the money-symbol scenario input
`"## الحالات المؤثرة\n- نص\n"`.  The eight money blocks are injected before the
newline that terminates the parent heading line, so the first injected block is
glued onto that line: the output contains the line
`## الحالات المؤثرة### مال ورقي vs معدني`, the parent title no longer parses as a
level-2 heading, the first money subsection does not parse as a level-3 heading,
and only the remaining seven subsections do; the other six required level-2
sections are appended at the tail. -/
theorem money_scenario_first_block_glued :
    _find_h2 moneyScenarioOut =
      ["الحالات المؤثرة### مال ورقي vs معدني", "الخلاصة السريعة", "كيف نفسّر؟",
       "حالة الرائي", "مقارنة التراث والنفسي", "FAQ", "المصادر"] ∧
    _find_h3 moneyScenarioOut =
      ["العثور", "الضياع", "السرقة", "الإهداء", "العدّ", "التبرّع", "المبلغ والعملة"] ∧
    (linesOf moneyScenarioOut).contains "## الحالات المؤثرة### مال ورقي vs معدني" = true :=
  ⟨rfl, rfl, rfl⟩

/-- C2: completeness fails.  In `"## س\nx\n## حالة الرائي\ny\n"` the required
parent `حالة الرائي` is the second level-2 heading; the rebuilding walk never
tests it, so none of its required subsections is injected, although the parent
is present in both the input and the output level-2 title sets. -/
theorem second_parent_subsections_not_injected :
    (_find_h2 walkScenarioText).contains "حالة الرائي" = true ∧
    (_find_h2 walkScenarioOut).contains "حالة الرائي" = true ∧
    ("حالة الرائي", dreamer_subs) ∈ (default_required "").2 ∧
    _find_h3 walkScenarioOut = [] :=
  ⟨rfl, rfl, by decide, rfl⟩

/-- C3: non-destructiveness fails.  Repairing `"## حالة الرائي\n"` glues the
first injected subsection block onto the existing parent heading line, so the
level-2 title `حالة الرائي` present in the input no longer appears among the
level-2 titles parsed from the output. -/
theorem existing_heading_title_destroyed :
    _find_h2 glueScenarioText = ["حالة الرائي"] ∧
    (_find_h2 glueScenarioOut).contains "حالة الرائي" = false :=
  ⟨rfl, rfl⟩

/-- C5 counterexample: with the schema mapping the absent parent `P` and the
present parent `Q` both to `["S1", "S2"]`, and the input `"## Q\nx\n"`, the
title `S2` — a required subsection of the absent parent `P` — is injected into
the output, refuting the claim that none of an absent parent's required
subsection titles is injected anywhere. -/
theorem absent_parent_title_still_injected :
    (_find_h2 overlapScenarioText).contains "P" = false ∧
    (_find_h3 overlapScenarioText).contains "S2" = false ∧
    (_find_h3 overlapScenarioOut).contains "S2" = true :=
  ⟨rfl, rfl, rfl⟩

/-- C6: for every symbol, the schema provider returns the same fixed ordered
seven level-2 titles, maps the dreamer-status parent to its five subsections,
and maps the influential-cases parent to the eight money-specific subsections
exactly when the trimmed symbol equals one of the four money synonyms, and to
the two-item generic fallback otherwise; being a total function, it never
fails. -/
theorem default_required_fixed_tables (symbol : String) :
    default_required symbol =
      (["الخلاصة السريعة", "كيف نفسّر؟", "الحالات المؤثرة", "حالة الرائي",
        "مقارنة التراث والنفسي", "FAQ", "المصادر"],
       [("حالة الرائي", ["عزباء", "متزوجة", "حامل", "مطلقة", "رجل"]),
        ("الحالات المؤثرة",
         if stripS symbol ∈ (["المال", "مال", "النقود", "النقد"] : List String) then
           ["مال ورقي vs معدني", "العثور", "الضياع", "السرقة", "الإهداء", "العدّ",
            "التبرّع", "المبلغ والعملة"]
         else ["تنويعات شائعة", "سياقات تزيد/تنقص المعنى"])]) := by
  unfold default_required required_h2_default money_synonyms dreamer_subs
    money_subs generic_subs
  dsimp only
  by_cases h : stripS symbol ∈ (["المال", "مال", "النقود", "النقد"] : List String)
  · have hc : (["المال", "مال", "النقود", "النقد"] : List String).contains (stripS symbol) = true := by
      simpa using h
    rw [if_pos h, if_pos hc]
  · have hc : ¬ (["المال", "مال", "النقود", "النقد"] : List String).contains (stripS symbol) = true := by
      simpa using h
    rw [if_neg h, if_neg hc]

/-- C7: the repair function is total in this model and its output always ends
with a newline character, for every text and schema. -/
theorem repair_always_ends_with_newline (text : String) (required_h2 : List String)
    (required_h3_map : List (String × List String)) :
    lastCh (enforce_outline text required_h2 required_h3_map) = some '\n' :=
  enforce_outline_lastCh text required_h2 required_h3_map

/-- C5 amended: a parent that is absent from the level-2 titles parsed from the
input is inert — deleting its entry from the schema does not change the output
of the repair at all, so no injection is ever performed on behalf of an absent
parent. -/
theorem absent_parent_entry_inert (text : String) (required_h2 : List String)
    (m1 m2 : List (String × List String)) (parent : String) (subs : List String)
    (h : (_find_h2 text).contains parent = false) :
    enforce_outline text required_h2 (m1 ++ (parent, subs) :: m2) =
      enforce_outline text required_h2 (m1 ++ m2) := by
  unfold enforce_outline
  dsimp only
  rw [List.foldl_append, List.foldl_append, List.foldl_cons]
  rw [h3Step_skip _ _ _ _ (Or.inr (Or.inl h))]

/-- Witness for the amended C5 theorem at a concrete input: with parent `P`
absent from `"## Q\nx\n"`, removing the entry of `P` leaves the repair output
unchanged. -/
theorem absent_parent_entry_inert_witness :
    (_find_h2 "## Q\nx\n").contains "P" = false ∧
    enforce_outline "## Q\nx\n" [] ([] ++ ("P", ["S1", "S2"]) :: [("Q", ["S1", "S2"])]) =
      enforce_outline "## Q\nx\n" [] ([] ++ [("Q", ["S1", "S2"])]) :=
  ⟨rfl, absent_parent_entry_inert "## Q\nx\n" [] [] [("Q", ["S1", "S2"])] "P"
    ["S1", "S2"] rfl⟩

/-- C10: when every required level-2 title already parses out of the input and,
for every parent entry, every required level-3 title already parses out of the
input, the repair returns the input unchanged except that a trailing newline is
appended when the input does not already end with one. -/
theorem repair_noop_when_schema_satisfied (text : String) (required_h2 : List String)
    (m : List (String × List String))
    (h1 : ∀ a ∈ required_h2, (_find_h2 text).contains a = true)
    (h2 : ∀ pm ∈ m, ∀ s ∈ pm.2, (_find_h3 text).contains s = true) :
    enforce_outline text required_h2 m =
      if endsNlB text then text else text ++ "\n" := by
  apply enforce_eq_of_skip
  · exact List.filter_eq_nil_iff.mpr (fun a ha => by simpa using h1 a ha)
  · intro pm hpm
    exact Or.inr (Or.inr (List.filter_eq_nil_iff.mpr
      (fun s hs => by simpa using h2 pm hpm s hs)))

/-- Witness for C10: the generic-schema-complete document without a final
newline comes back with exactly one newline appended. -/
theorem repair_noop_witness :
    enforce_outline fullGenericText (default_required "الذهب").1
        (default_required "الذهب").2 = fullGenericText ++ "\n" := by
  have h := repair_noop_when_schema_satisfied fullGenericText
    (default_required "الذهب").1 (default_required "الذهب").2 (by decide) (by decide)
  rw [h]
  exact if_neg (by decide)

theorem enforce_outline_fixpoint (u : String) (required_h2 : List String)
    (m : List (String × List String)) (hnl : lastCh u = some '\n')
    (h : noFurtherInjection required_h2 m u) :
    enforce_outline u required_h2 m = u := by
  have hnl2 : u.data.getLast? = some '\n' := hnl
  have e := enforce_eq_of_skip u required_h2 m
    (List.filter_eq_nil_iff.mpr (fun a ha => by simpa using h.1 a ha))
    (fun pm hpm => by
      rcases h.2 pm hpm with hx | hx | hx
      · exact Or.inl hx
      · exact Or.inr (Or.inl hx)
      · exact Or.inr (Or.inr (List.filter_eq_nil_iff.mpr
          (fun s hs => by simpa using hx s hs))))
  rw [e]
  apply if_pos
  unfold endsNlB
  rw [hnl2]
  rfl

/-- C4: the repair is idempotent for a fixed schema on every text whose first
repair leaves no requirement as a candidate for further injection — every
required level-2 title parses out of the repaired text, and every parent entry
of the map is empty, absent, or fully satisfied there. -/
theorem repair_idempotent_of_no_further_candidates (text : String)
    (required_h2 : List String) (m : List (String × List String))
    (h : noFurtherInjection required_h2 m (enforce_outline text required_h2 m)) :
    enforce_outline (enforce_outline text required_h2 m) required_h2 m =
      enforce_outline text required_h2 m :=
  enforce_outline_fixpoint _ _ _ (enforce_outline_lastCh text required_h2 m) h

/-- Witness for C4: a money-schema-complete document is a fixed point of the
repair, and repairing it twice equals repairing it once. -/
theorem repair_idempotent_witness :
    enforce_outline
        (enforce_outline fullMoneyText (default_required "المال").1
          (default_required "المال").2)
        (default_required "المال").1 (default_required "المال").2 =
      enforce_outline fullMoneyText (default_required "المال").1
        (default_required "المال").2 :=
  repair_idempotent_of_no_further_candidates fullMoneyText _ _
    (by unfold noFurtherInjection; decide)

theorem rebuild_single (p i x : String) : rebuild p i [x] = [x] := rfl

theorem h3Step_single_fragment (e2 e3 : List String) (cur : String)
    (pm : String × List String) (hsplit : reSplitH2 cur = [cur]) :
    h3Step e2 e3 cur pm = cur := by
  unfold h3Step
  split
  · rfl
  · dsimp only
    split
    · rfl
    · rw [hsplit, rebuild_single, joinAll_cons, joinAll_nil, strAppend_empty]

set_option maxRecDepth 8000 in
/-- C9: whatever subsections the schema requires under it, a parent that occurs
only as an indented level-2 heading line is seen by the parser (so it is not
appended again at the tail — it parses exactly once from the output) while the
injection split, which recognizes only column-0 heading lines, never finds it:
no level-3 heading at all appears in the output, whose exact value only adds
the six other required level-2 sections at the tail. -/
theorem indented_parent_present_without_injection (subs : List String) :
    indentedParentOut subs = " ## حالة الرائي\n\n## الخلاصة السريعة\n- (Placeholder) أضف نقاطًا موجزة هنا.\n\n\n## كيف نفسّر؟\n- (Placeholder) أضف نقاطًا موجزة هنا.\n\n\n## الحالات المؤثرة\n- (Placeholder) أضف نقاطًا موجزة هنا.\n\n\n## مقارنة التراث والنفسي\n- (Placeholder) أضف نقاطًا موجزة هنا.\n\n\n## FAQ\n- (Placeholder) أضف نقاطًا موجزة هنا.\n\n\n## المصادر\n- (Placeholder) أضف نقاطًا موجزة هنا.\n\n" ∧
    (_find_h2 (indentedParentOut subs)).count "حالة الرائي" = 1 ∧
    _find_h3 (indentedParentOut subs) = [] := by
  have hout : indentedParentOut subs = " ## حالة الرائي\n\n## الخلاصة السريعة\n- (Placeholder) أضف نقاطًا موجزة هنا.\n\n\n## كيف نفسّر؟\n- (Placeholder) أضف نقاطًا موجزة هنا.\n\n\n## الحالات المؤثرة\n- (Placeholder) أضف نقاطًا موجزة هنا.\n\n\n## مقارنة التراث والنفسي\n- (Placeholder) أضف نقاطًا موجزة هنا.\n\n\n## FAQ\n- (Placeholder) أضف نقاطًا موجزة هنا.\n\n\n## المصادر\n- (Placeholder) أضف نقاطًا موجزة هنا.\n\n" := by
    unfold indentedParentOut enforce_outline
    dsimp only
    rw [show (if endsNlB " ## حالة الرائي\n" then " ## حالة الرائي\n"
          else " ## حالة الرائي\n" ++ "\n") = " ## حالة الرائي\n" from rfl]
    rw [List.foldl_cons, List.foldl_nil]
    rw [h3Step_single_fragment (_find_h2 " ## حالة الرائي\n")
      (_find_h3 " ## حالة الرائي\n") " ## حالة الرائي\n" ("حالة الرائي", subs) rfl]
    rfl
  refine ⟨hout, ?_, ?_⟩ <;> rw [hout] <;> rfl

/-- C8: the heading normalizer, modelled from the spec, is idempotent. -/
theorem normalize_methodology_heading_idempotent (x : String) :
    normalize_methodology_heading (normalize_methodology_heading x) =
      normalize_methodology_heading x := by
  have hlines : linesOf (normalize_methodology_heading x) = (linesOf x).map normLine := by
    unfold normalize_methodology_heading
    apply linesOf_joinNl
    · simpa using linesOf_ne_nil x
    · intro l hl
      obtain ⟨l0, hl0, rfl⟩ := List.mem_map.mp hl
      exact normLine_no_nl l0 (mem_linesOf_no_nl x l0 hl0)
  have h2 : ∀ L : List String, (L.map normLine).map normLine = L.map normLine := by
    intro L
    induction L with
    | nil => rfl
    | cons a l ih => simp [ih, normLine_idem]
  show joinNl ((linesOf (normalize_methodology_heading x)).map normLine) =
    normalize_methodology_heading x
  rw [hlines, h2]
  rfl
